import Mathlib

/- Verification of the line-matching and file-traversal engine of the
`search_utility` grep-like tool (`src/main.rs`).  Strings are modelled as
lists of Unicode scalars (`List Char`); the filesystem is modelled as a flat
listing of absolute paths (component lists) with their node kinds. -/

/-- Search options, mirroring the flag fields of `Config` in `src/main.rs`.
The `file_paths` list is handled separately by `resolvePaths`, and `help` is
command-line glue outside the engine. -/
structure Config where
  pattern : List Char
  case_insensitive : Bool
  print_line_numbers : Bool
  invert_match : Bool
  recursive_search : Bool
  print_filenames : Bool
  colored_output : Bool

/-- A node of the modelled filesystem: a regular file with its lines (`none`
marks a line that is not valid UTF-8, i.e. `BufRead::lines` yields `Err`),
a directory, or a node whose metadata or contents cannot be read. -/
inductive FsNode where
  | fileNode (lines : List (Option (List Char)))
  | dirNode
  | unreadableNode
deriving DecidableEq

/-- The filesystem: a flat listing of absolute paths with their node kinds.
Directory iteration order is the listing order. -/
abbrev Fs := List (List String × FsNode)

def renderPath (p : List String) : String := String.intercalate "/" p

def statErrMsg (d : List String) : List Char :=
  ("Error: could not get metadata for: " ++ renderPath d).data

def walkErrMsg (d : List String) : List Char :=
  ("Error: could not read directory " ++ renderPath d).data

def openErrMsg (p : List String) : List Char :=
  ("Could not open file: " ++ renderPath p).data

def readErrMsg (n : Nat) (p : List String) : List Char :=
  ("Could not read line " ++ Nat.repr n ++ " from " ++ renderPath p).data

def regexErrMsg : List Char :=
  "Could not create regex builder for pattern".data

/-- `isUnder d p`: `p` is a proper descendant path of directory `d`
(what `WalkDir::new(d)` visits strictly below its root, at any depth). -/
def isUnder : List String → List String → Bool
  | [], [] => false
  | [], _ :: _ => true
  | _ :: _, [] => false
  | a :: d1, b :: p1 => a == b && isUnder d1 p1

/-- The base name of a path, `entry.file_name()` in the source. -/
def baseName (p : List String) : String := p.getLastD ""

/-- Models Rust `str::starts_with(".")`. -/
def startsWithDot (s : String) : Bool :=
  match s.data with
  | [] => false
  | c :: _ => c == '.'

def FsNode.isFile : FsNode → Bool
  | .fileNode _ => true
  | _ => false

def FsNode.isUnreadable : FsNode → Bool
  | .unreadableNode => true
  | _ => false

/-- The directory walk of `recursively_find_all_files` (`WalkDir::new(directory)`),
over the flat listing: it fails as soon as any node below the root is unreadable
(a `WalkDir` entry yields `Err`), and otherwise collects every regular file
below the root whose own base name does not start with `.`.  The hidden-name
check in the source sits inside the `entry.file_type().is_file()` branch, so it
applies to file entries only; directory entries are never pushed and hidden
directories are still descended into. -/
def walkFiles (fs : Fs) (d : List String) : Except Unit (List (List String)) :=
  if fs.any (fun e => isUnder d e.1 && e.2.isUnreadable) then Except.error ()
  else Except.ok
    ((fs.filter (fun e => isUnder d e.1 && e.2.isFile && !startsWithDot (baseName e.1))).map
      (fun e => e.1))

/-- `recursively_find_all_files` from `src/main.rs`: for each root in order,
stat it; a stat failure aborts the whole call; a regular file is pushed as
given (no hidden check); a directory is walked and a walk failure aborts the
whole call.  The accumulating vector is modelled by list concatenation in
loop order. -/
def recursively_find_all_files (fs : Fs) :
    List (List String) → Except (List Char) (List (List String))
  | [] => Except.ok []
  | d :: rest =>
    match List.lookup d fs with
    | none => Except.error (statErrMsg d)
    | some FsNode.unreadableNode => Except.error (statErrMsg d)
    | some (FsNode.fileNode _) =>
      (recursively_find_all_files fs rest).map (fun r => d :: r)
    | some FsNode.dirNode =>
      match walkFiles fs d with
      | Except.error _ => Except.error (walkErrMsg d)
      | Except.ok found => (recursively_find_all_files fs rest).map (fun r => found ++ r)

/-- The path-resolution step of `Config::new`: only when `recursive_search` is
set are the input paths expanded; otherwise they are passed through unchanged
to the file loop. -/
def resolvePaths (fs : Fs) (paths : List (List String)) (recursive : Bool) :
    Except (List Char) (List (List String)) :=
  if recursive then recursively_find_all_files fs paths else Except.ok paths

/-- The characters escaped by `regex::escape` (the regex-syntax
metacharacters). -/
def isMetaChar (c : Char) : Bool :=
  ['\\', '.', '+', '*', '?', '(', ')', '|', '[', ']', '\x7b', '\x7d',
   '^', '$', '#', '&', '-', '~'].contains c

/-- `regex::escape`: a backslash is inserted before every metacharacter. -/
def escape : List Char → List Char
  | [] => []
  | c :: rest => (if isMetaChar c then ['\\', c] else [c]) ++ escape rest

/-- The literal fragment of the regex syntax accepted by `RegexBuilder::build`
as the source uses it: an escaped metacharacter or a plain non-metacharacter
denotes itself; an unescaped metacharacter would be a pattern-language
operator and falls outside the fragment (`none`). -/
def parseEscaped : List Char → Option (List Char)
  | [] => some []
  | c :: rest =>
    if c = '\\' then
      match rest with
      | [] => none
      | d :: rest2 => (parseEscaped rest2).map (fun l => d :: l)
    else if isMetaChar c then none
    else (parseEscaped rest).map (fun l => c :: l)

/-- `RegexBuilder::new(&regex::escape(&config.pattern)) ... build()`: the
compiled regex, given as the list of literal characters it matches. -/
def buildRegex (p : List Char) : Option (List Char) := parseEscaped (escape p)

/-- Per-character case folding performed by the regex engine under
`case_insensitive(true)` (simple case folding, character by character). -/
def foldChar (c : Char) : Char := c.toLower

def charEq (ci : Bool) (c d : Char) : Bool :=
  if ci then foldChar c == foldChar d else c == d

/-- The literal characters match at the very start of the line suffix. -/
def matchesAt (ci : Bool) : List Char → List Char → Bool
  | [], _ => true
  | _ :: _, [] => false
  | c :: cp, d :: dl => charEq ci c d && matchesAt ci cp dl

/-- `Regex::is_match` for the escaped-literal regex: the literal characters
occur starting at some position of the line. -/
def reMatch (ci : Bool) (p : List Char) : List Char → Bool
  | [] => matchesAt ci p []
  | c :: rest => matchesAt ci p (c :: rest) || reMatch ci p rest

/-- The opening marker emitted by `colored`'s `.red()`. -/
def redOpen : List Char := ['\x1b', '[', '3', '1', 'm']

/-- The closing marker emitted by `colored`'s `.red()`. -/
def redClose : List Char := ['\x1b', '[', '0', 'm']

/-- `Regex::replace_all` for a nonempty literal pattern with the replacement
`caps[0].red().to_string()`: scan left to right, wrap each leftmost
non-overlapping occurrence (its original-cased text, taken from the line) in
the red markers.  The fuel argument is initialised to the line length and is
never exhausted, since every step consumes at least one character. -/
def highlightFuel (ci : Bool) (p0 : Char) (ptl : List Char) : Nat → List Char → List Char
  | _, [] => []
  | 0, l => l
  | fuel + 1, c :: rest =>
    if matchesAt ci (p0 :: ptl) (c :: rest) then
      redOpen ++ ((c :: rest).take (ptl.length + 1) ++
        (redClose ++ highlightFuel ci p0 ptl fuel (rest.drop ptl.length)))
    else c :: highlightFuel ci p0 ptl fuel rest

/-- `Regex::replace_all` for the empty literal pattern: an empty match is
found at every position (the end of the line included) and each is replaced
by `"".red()`, i.e. the two markers with nothing between them. -/
def highlightEmpty : List Char → List Char
  | [] => redOpen ++ redClose
  | c :: rest => redOpen ++ (redClose ++ (c :: highlightEmpty rest))

/-- `re.replace_all(line, |caps| caps[0].red().to_string())`. -/
def replaceAllRed (ci : Bool) (p line : List Char) : List Char :=
  match p with
  | [] => highlightEmpty line
  | p0 :: ptl => highlightFuel ci p0 ptl line.length line

/-- `pattern_in_line` from `src/main.rs`: the match decision of the compiled
regex (given as its literal characters plus the case flag), and the display
line, with every match wrapped in red when colored output is requested. -/
def pattern_in_line (re : List Char) (ci colored_out : Bool) (line : List Char) :
    Bool × List Char :=
  if !reMatch ci re line then (false, line)
  else if !colored_out then (true, line)
  else (true, replaceAllRed ci re line)

/-- `should_print` from `src/main.rs`. -/
def should_print (invert_match pattern_found : Bool) : Bool :=
  if invert_match then !pattern_found else pattern_found

/-- `print_match` from `src/main.rs`: the printed record, with the optional
filename and line-number components joined to the line by `": "`. -/
def print_match (config : Config) (file_path : List String) (line_number : Nat)
    (line : List Char) : List Char :=
  List.intercalate [':', ' ']
    ((if config.print_filenames then [(renderPath file_path).data] else []) ++
     ((if config.print_line_numbers then [(Nat.repr line_number).data] else []) ++ [line]))

/-- The line loop of `search_file`: `enumerate` starts at `i = 0`, each decoded
line is matched and, when eligible, printed as line `i + 1`; the first
undecodable line aborts the file's scan with a read error naming that line.
Returns the records printed (in order) and the error, if any. -/
def scanLines (config : Config) (re : List Char) (file_path : List String) :
    Nat → List (Option (List Char)) → List (List Char) × Option (List Char)
  | _, [] => ([], none)
  | i, none :: _ => ([], some (readErrMsg (i + 1) file_path))
  | i, some line :: rest =>
    let pd := pattern_in_line re config.case_insensitive config.colored_output line
    let t := scanLines config re file_path (i + 1) rest
    if should_print config.invert_match pd.1 then
      (print_match config file_path (i + 1) pd.2 :: t.1, t.2)
    else t

/-- `search_file` from `src/main.rs`, over the modelled filesystem.  A path
that is absent or whose metadata is unreadable fails at `File::open`.  On
Linux, `File::open` on a directory succeeds and the first read fails with
`EISDIR`, so a directory path reports the read error at line 1. -/
def search_file (fs : Fs) (config : Config) (file_path : List String) :
    List (List Char) × Option (List Char) :=
  match List.lookup file_path fs with
  | some (FsNode.fileNode ls) =>
    match buildRegex config.pattern with
    | some re => scanLines config re file_path 0 ls
    | none => ([], some regexErrMsg)
  | some FsNode.dirNode => ([], some (readErrMsg 1 file_path))
  | _ => ([], some (openErrMsg file_path))

/-- The file loop of `main`: each resolved path is searched in order; the
first error stops the loop (its message becomes the run's error) and later
paths are never attempted.  Returns all printed records and the error. -/
def runFiles (fs : Fs) (config : Config) :
    List (List String) → List (List Char) × Option (List Char)
  | [] => ([], none)
  | f :: rest =>
    let r := search_file fs config f
    match r.2 with
    | some e => (r.1, some e)
    | none =>
      let t := runFiles fs config rest
      (r.1 ++ t.1, t.2)

/-- `main` after flag parsing: resolve the targets per the recursive flag,
then run the file loop.  A resolution error is printed and nothing is
searched. -/
def runGrep (fs : Fs) (config : Config) (targets : List (List String)) :
    List (List Char) × Option (List Char) :=
  match resolvePaths fs targets config.recursive_search with
  | Except.error e => ([], some e)
  | Except.ok files => runFiles fs config files

/-- Remove every occurrence of the two red highlight markers from a
character list, left to right. -/
def stripMarkers : List Char → List Char
  | '\x1b' :: '[' :: '3' :: '1' :: 'm' :: rest => stripMarkers rest
  | '\x1b' :: '[' :: '0' :: 'm' :: rest => stripMarkers rest
  | c :: rest => c :: stripMarkers rest
  | [] => []

/- Concrete fixtures used by counterexamples and witnesses. -/

/-- A directory `d` containing one file `d/a`. -/
def fsDup : Fs := [(["d"], FsNode.dirNode), (["d", "a"], FsNode.fileNode [some ['x']])]

/-- A directory `d` containing a hidden directory `d/.h` with a file `d/.h/a`. -/
def fsHidden : Fs :=
  [(["d"], FsNode.dirNode), (["d", ".h"], FsNode.dirNode),
   (["d", ".h", "a"], FsNode.fileNode [some ['x']])]

/-- A directory `d` (containing `d/a`) next to a matching file `b`. -/
def fsDirRun : Fs :=
  [(["d"], FsNode.dirNode), (["d", "a"], FsNode.fileNode [some ['c', 'a', 't']]),
   (["b"], FsNode.fileNode [some ['c', 'a', 't']])]

/-- A single readable file `y`. -/
def fsOne : Fs := [(["y"], FsNode.fileNode [some ['c', 'a', 't']])]

/-- A single unreadable root `x`. -/
def fsUn : Fs := [(["x"], FsNode.unreadableNode)]

/-- A file `f` whose second line fails to decode. -/
def fsBadLine : Fs :=
  [(["f"], FsNode.fileNode [some ['c', 'a', 't'], none, some ['c', 'a', 't']])]

/-- Pattern `cat`, every flag off. -/
def cfgPlain : Config := ⟨['c', 'a', 't'], false, false, false, false, false, false⟩

example : walkFiles fsDup ["d"] = Except.ok [["d", "a"]] := rfl

example : startsWithDot ".h" = true := rfl

example : recursively_find_all_files fsDup [["d"], ["d", "a"]] =
    Except.ok [["d", "a"], ["d", "a"]] := rfl

example : search_file fsDirRun cfgPlain ["b"] = ([['c', 'a', 't']], none) := rfl

example : runGrep fsDirRun cfgPlain [["d"], ["b"]] = ([], some (readErrMsg 1 ["d"])) := rfl

example : stripMarkers (redOpen ++ ['a', 'b'] ++ redClose) = ['a', 'b'] := rfl

example : pattern_in_line ['c', 'a', 't'] false true ['c', 'a', 't', 's'] =
    (true, redOpen ++ ['c', 'a', 't'] ++ (redClose ++ ['s'])) := rfl

/- Helper lemmas about the matcher. -/

theorem matchesAt_false_iff (p l : List Char) :
    matchesAt false p l = true ↔ ∃ t, l = p ++ t := by
  induction p generalizing l with
  | nil => simp [matchesAt]
  | cons c cp ih =>
    cases l with
    | nil => simp [matchesAt]
    | cons d dl =>
      simp only [matchesAt, charEq, Bool.if_false_left, Bool.and_eq_true, beq_iff_eq,
        Bool.false_eq_true, if_false, ih]
      constructor
      · rintro ⟨rfl, t, rfl⟩
        exact ⟨t, rfl⟩
      · rintro ⟨t, h⟩
        injection h with h1 h2
        exact ⟨h1.symm, t, h2⟩

theorem reMatch_false_iff (p l : List Char) :
    reMatch false p l = true ↔ ∃ a b, l = a ++ (p ++ b) := by
  induction l with
  | nil =>
    simp only [reMatch, matchesAt_false_iff]
    constructor
    · rintro ⟨t, ht⟩
      exact ⟨[], t, ht⟩
    · rintro ⟨a, b, h⟩
      have h2 := (List.append_eq_nil.mp h.symm).2
      exact ⟨b, h2.symm⟩
  | cons c rest ih =>
    simp only [reMatch, Bool.or_eq_true, matchesAt_false_iff, ih]
    constructor
    · rintro (⟨t, ht⟩ | ⟨a, b, h⟩)
      · exact ⟨[], t, by simpa using ht⟩
      · exact ⟨c :: a, b, by simp [h]⟩
    · rintro ⟨a, b, h⟩
      cases a with
      | nil => exact Or.inl ⟨b, by simpa using h⟩
      | cons a0 a1 =>
        injection h with h1 h2
        exact Or.inr ⟨a1, b, h2⟩

theorem matchesAt_true_fold (p l : List Char) :
    matchesAt true p l = matchesAt false (p.map foldChar) (l.map foldChar) := by
  induction p generalizing l with
  | nil => simp [matchesAt]
  | cons c cp ih =>
    cases l with
    | nil => simp [matchesAt]
    | cons d dl => simp [matchesAt, charEq, ih]

theorem reMatch_true_fold (p l : List Char) :
    reMatch true p l = reMatch false (p.map foldChar) (l.map foldChar) := by
  induction l with
  | nil => simp [reMatch, matchesAt_true_fold]
  | cons c rest ih => simp [reMatch, matchesAt_true_fold, ih]

theorem parseEscaped_escape (p : List Char) : parseEscaped (escape p) = some p := by
  induction p with
  | nil => rfl
  | cons c rest ih =>
    by_cases h : isMetaChar c = true
    · simp [escape, h, parseEscaped, ih]
    · have hc : ¬ c = '\\' := by
        intro hc
        subst hc
        exact h rfl
      have he : escape (c :: rest) = c :: escape rest := by
        simp [escape, h]
      rw [he, parseEscaped.eq_def]
      split
      · simp_all
      · rename_i d rest2 heq
        injection heq with h1 h2
        subst h1
        subst h2
        rw [if_neg hc, if_neg h, ih]
        rfl

theorem fst_pattern_in_line (re : List Char) (ci col : Bool) (line : List Char) :
    (pattern_in_line re ci col line).1 = reMatch ci re line := by
  unfold pattern_in_line
  cases h : reMatch ci re line <;> cases col <;> simp [h]

/-- C4: with `case_insensitive = false`, the matcher reports a match iff the
line contains the pattern as a literal substring.  `regex::escape` makes every
metacharacter of the pattern denote itself: the escaped pattern parses in the
literal regex fragment back to exactly the pattern's characters, so no
character of the pattern acts as a pattern-language operator. -/
theorem matcher_case_sensitive_literal_substring (p line : List Char) (col : Bool) :
    buildRegex p = some p ∧
    ((pattern_in_line p false col line).1 = true ↔ ∃ a b, line = a ++ (p ++ b)) := by
  refine ⟨parseEscaped_escape p, ?_⟩
  rw [fst_pattern_in_line]
  exact reMatch_false_iff p line

/-- C5: with `case_insensitive = true`, the matcher's decision equals substring
containment of the case-folded copy of the pattern within the case-folded copy
of the line, the folding being applied character by character as the regex
engine's simple case folding does. -/
theorem matcher_case_insensitive_folded_substring (p line : List Char) (col : Bool) :
    (pattern_in_line p true col line).1 = true ↔
      ∃ a b, line.map foldChar = a ++ (p.map foldChar ++ b) := by
  rw [fst_pattern_in_line, reMatch_true_fold]
  exact reMatch_false_iff (p.map foldChar) (line.map foldChar)

/-- C7: a line is eligible for output iff `matched XOR invert`; for any fixed
matcher decision, eligibility under `invert = true` is the boolean complement
of eligibility under `invert = false`, so no line is ever eligible under both
settings or under neither. -/
theorem invert_xor_complement (inv m : Bool) (re line : List Char) (ci col : Bool) :
    should_print inv m = Bool.xor m inv ∧
    should_print true (pattern_in_line re ci col line).1 =
      !should_print false (pattern_in_line re ci col line).1 ∧
    ¬(should_print true m = true ∧ should_print false m = true) ∧
    (should_print true m = true ∨ should_print false m = true) := by
  cases h : (pattern_in_line re ci col line).1 <;> cases inv <;> cases m <;>
    simp [should_print]

/- Helper lemmas about highlight markers. -/

theorem stripMarkers_cons (c : Char) (rest : List Char) (h : c ≠ '\x1b') :
    stripMarkers (c :: rest) = c :: stripMarkers rest := by
  rw [stripMarkers.eq_def]
  split
  · rename_i heq
    exact absurd (List.head_eq_of_cons_eq heq) h
  · rename_i heq
    exact absurd (List.head_eq_of_cons_eq heq) h
  · rename_i c2 rest2 heq
    injection heq with h1 h2
    subst h1
    subst h2
    rfl
  · rename_i heq
    exact absurd heq (List.cons_ne_nil c rest)

theorem stripMarkers_noEsc (l : List Char) (h : ∀ c ∈ l, c ≠ '\x1b') :
    stripMarkers l = l := by
  induction l with
  | nil => rfl
  | cons c rest ih =>
    rw [stripMarkers_cons c rest (h c (List.mem_cons_self c rest)),
      ih (fun x hx => h x (List.mem_cons_of_mem c hx))]

theorem stripMarkers_append_noEsc (a rest : List Char) (h : ∀ c ∈ a, c ≠ '\x1b') :
    stripMarkers (a ++ rest) = a ++ stripMarkers rest := by
  induction a with
  | nil => rfl
  | cons c a1 ih =>
    rw [List.cons_append, stripMarkers_cons _ _ (h c (List.mem_cons_self c a1)),
      ih (fun x hx => h x (List.mem_cons_of_mem c hx)), List.cons_append]

theorem stripMarkers_redOpen (xs : List Char) :
    stripMarkers (redOpen ++ xs) = stripMarkers xs := rfl

theorem stripMarkers_redClose (xs : List Char) :
    stripMarkers (redClose ++ xs) = stripMarkers xs := rfl

theorem strip_highlightEmpty (l : List Char) (h : ∀ c ∈ l, c ≠ '\x1b') :
    stripMarkers (highlightEmpty l) = l := by
  induction l with
  | nil => rfl
  | cons c rest ih =>
    show stripMarkers (redOpen ++ (redClose ++ (c :: highlightEmpty rest))) = c :: rest
    rw [stripMarkers_redOpen, stripMarkers_redClose,
      stripMarkers_cons _ _ (h c (List.mem_cons_self c rest)),
      ih (fun x hx => h x (List.mem_cons_of_mem c hx))]

theorem strip_highlightFuel (ci : Bool) (p0 : Char) (ptl : List Char) :
    ∀ (fuel : Nat) (l : List Char), l.length ≤ fuel → (∀ c ∈ l, c ≠ '\x1b') →
      stripMarkers (highlightFuel ci p0 ptl fuel l) = l := by
  intro fuel
  induction fuel with
  | zero =>
    intro l hl _
    have hnil : l = [] := List.eq_nil_of_length_eq_zero (Nat.le_zero.mp hl)
    subst hnil
    rfl
  | succ n ih =>
    intro l hl hesc
    cases l with
    | nil => rfl
    | cons c rest =>
      simp only [highlightFuel]
      by_cases hm : matchesAt ci (p0 :: ptl) (c :: rest) = true
      · rw [if_pos hm, stripMarkers_redOpen,
          stripMarkers_append_noEsc _ _
            (fun x hx => hesc x (List.take_subset (ptl.length + 1) (c :: rest) hx)),
          stripMarkers_redClose,
          ih (rest.drop ptl.length)
            (by simp only [List.length_drop]
                have : rest.length ≤ n := by
                  have := hl
                  simp only [List.length_cons] at this
                  omega
                omega)
            (fun x hx => hesc x (List.mem_cons_of_mem c (List.drop_subset ptl.length rest hx))),
          List.take_succ_cons, List.cons_append, List.take_append_drop]
      · rw [if_neg hm, stripMarkers_cons _ _ (hesc c (List.mem_cons_self c rest)),
          ih rest (by simp only [List.length_cons] at hl; omega)
            (fun x hx => hesc x (List.mem_cons_of_mem c hx))]

/-- C6 (amended): for every pattern, case rule and colorize flag, and every
line that does not itself contain the escape character `'\x1b'` (U+001B, the
first byte of the `colored` markers), removing all highlight markers from the
matcher's display text reproduces the original line exactly: the matcher only
inserts marker runs around matched spans and never drops, duplicates, or
reorders any character of the line.  The escape-character proviso is needed
because stripping cannot distinguish marker bytes already present in the
line's own text. -/
theorem strip_roundtrip_no_esc (re line : List Char) (ci col : Bool)
    (h : ∀ c ∈ line, c ≠ '\x1b') :
    stripMarkers (pattern_in_line re ci col line).2 = line := by
  cases hm : reMatch ci re line with
  | false => simp [pattern_in_line, hm, stripMarkers_noEsc line h]
  | true =>
    cases col with
    | false => simp [pattern_in_line, hm, stripMarkers_noEsc line h]
    | true =>
      have h2 : (pattern_in_line re ci true line).2 = replaceAllRed ci re line := by
        simp [pattern_in_line, hm]
      rw [h2]
      cases re with
      | nil => exact strip_highlightEmpty line h
      | cons p0 ptl =>
        exact strip_highlightFuel ci p0 ptl line.length line (Nat.le_refl _) h

/-- C6 (counterexample): the claim quantifies over every line, but on a line
whose own text is the marker string `ESC [ 3 1 m` (and a pattern that does not
match it), the display text is the line unchanged and stripping the markers
erases it, so the original line is not reproduced. -/
theorem strip_roundtrip_counterexample :
    stripMarkers (pattern_in_line ['z'] false true redOpen).2 ≠ redOpen := by
  decide

/-- Witness for the amended C6 at pattern `cat`, line `concatenate`,
case-sensitive, colorized. -/
theorem strip_roundtrip_no_esc_witness :
    stripMarkers
      (pattern_in_line ['c', 'a', 't'] false true
        ['c', 'o', 'n', 'c', 'a', 't', 'e', 'n', 'a', 't', 'e']).2 =
      ['c', 'o', 'n', 'c', 'a', 't', 'e', 'n', 'a', 't', 'e'] :=
  strip_roundtrip_no_esc ['c', 'a', 't']
    ['c', 'o', 'n', 'c', 'a', 't', 'e', 'n', 'a', 't', 'e'] false true (by decide)

/-- C1 (counterexample): with `recursive = false` a directory target is not
silently skipped.  On the filesystem with directory `d` (containing the
matching file `d/a`) and the matching file `b`, the run over targets
`[d, b]` passes `d` through resolution unchanged, fails on `d` with a read
error, prints nothing, and never reaches `b` — even though searching `b`
alone would have printed its matching line. -/
theorem nonrecursive_dir_counterexample :
    resolvePaths fsDirRun [["d"], ["b"]] false = Except.ok [["d"], ["b"]] ∧
    runGrep fsDirRun cfgPlain [["d"], ["b"]] = ([], some (readErrMsg 1 ["d"])) ∧
    search_file fsDirRun cfgPlain ["b"] = ([['c', 'a', 't']], none) := by
  refine ⟨rfl, rfl, rfl⟩

/-- C1 (amended): when `recursive` is false, no path resolution takes place at
all: the input paths, directories included, are passed through unchanged as
scan targets.  A directory target is then handed to the per-file scanner,
which fails on it (on Linux, `File::open` on a directory succeeds and the
first read fails), aborting the run rather than proceeding over the remaining
targets. -/
theorem nonrecursive_dir_passthrough (fs : Fs) (paths : List (List String))
    (config : Config) (d : List String)
    (hd : List.lookup d fs = some FsNode.dirNode) :
    resolvePaths fs paths false = Except.ok paths ∧
    search_file fs config d = ([], some (readErrMsg 1 d)) := by
  constructor
  · rfl
  · unfold search_file
    rw [hd]

/-- Witness for the amended C1 on the concrete directory target `d`. -/
theorem nonrecursive_dir_passthrough_witness :
    resolvePaths fsDirRun [["d"], ["b"]] false = Except.ok [["d"], ["b"]] ∧
    search_file fsDirRun cfgPlain ["d"] = ([], some (readErrMsg 1 ["d"])) :=
  nonrecursive_dir_passthrough fsDirRun [["d"], ["b"]] cfgPlain ["d"] (by decide)

/-- C2 (counterexample): the resolved collection is not a set.  On the
filesystem with directory `d` containing file `d/a`, resolving the roots
`[d, d/a]` yields `d/a` twice, and resolving the root list `[d, d]` also
yields `d/a` twice rather than the same collection as resolving `[d]` once. -/
theorem resolve_duplicates_counterexample :
    recursively_find_all_files fsDup [["d"], ["d", "a"]] =
      Except.ok [["d", "a"], ["d", "a"]] ∧
    recursively_find_all_files fsDup [["d"], ["d"]] =
      Except.ok [["d", "a"], ["d", "a"]] ∧
    recursively_find_all_files fsDup [["d"]] = Except.ok [["d", "a"]] := by
  refine ⟨rfl, rfl, rfl⟩

/-- C2 (amended): the result of recursive path resolution is a list, not a
set: it is the concatenation, in input order, of each root's contribution,
with no deduplication.  Hence a file reachable via two roots appears once per
root, and listing the same root twice concatenates its files twice. -/
theorem resolve_append_homomorphism (fs : Fs) (as bs : List (List String)) :
    recursively_find_all_files fs (as ++ bs) =
      (recursively_find_all_files fs as).bind
        (fun x => (recursively_find_all_files fs bs).map (fun y => x ++ y)) := by
  induction as with
  | nil =>
    cases h : recursively_find_all_files fs bs <;>
      simp [recursively_find_all_files, Except.bind, Except.map, h]
  | cons d as1 ih =>
    simp only [List.cons_append, recursively_find_all_files]
    cases hl : List.lookup d fs with
    | none => simp [Except.bind]
    | some node =>
      cases node with
      | unreadableNode => simp [Except.bind]
      | fileNode ls =>
        simp only [List.append_eq]
        rw [ih]
        cases ha : recursively_find_all_files fs as1 <;>
          cases hb : recursively_find_all_files fs bs <;>
            simp [Except.bind, Except.map]
      | dirNode =>
        cases hw : walkFiles fs d with
        | error e => simp [Except.bind]
        | ok found =>
          simp only [List.append_eq]
          rw [ih]
          cases ha : recursively_find_all_files fs as1 <;>
            cases hb : recursively_find_all_files fs bs <;>
              simp [Except.bind, Except.map, List.append_assoc]

/-- C3 (counterexample): a file under a hidden directory is returned.  On the
filesystem with directory `d` containing hidden directory `d/.h` which
contains the file `d/.h/a`, recursive resolution of `[d]` returns
`d/.h/a` even though it lies under the dot-prefixed directory `.h`. -/
theorem hidden_dir_descended_counterexample :
    recursively_find_all_files fsHidden [["d"]] = Except.ok [["d", ".h", "a"]] ∧
    startsWithDot ".h" = true := by
  refine ⟨rfl, rfl⟩

/-- C3 (amended): under recursive traversal, the hidden-name exclusion applies
only to the walked file entries' own base names: every path a successful
directory walk returns has a base name that does not begin with `.`.  Files
located under hidden directories are still returned (the walk descends into
dot-prefixed directories), and a hidden file passed directly as a root is
also returned. -/
theorem walk_excludes_hidden_basenames (fs : Fs) (d : List String)
    (res : List (List String)) (h : walkFiles fs d = Except.ok res) :
    ∀ p ∈ res, startsWithDot (baseName p) = false := by
  intro p hp
  unfold walkFiles at h
  split at h
  · exact absurd h (by simp)
  · injection h with h1
    subst h1
    obtain ⟨e, he, rfl⟩ := List.mem_map.mp hp
    have hf := (List.mem_filter.mp he).2
    simp only [Bool.and_eq_true, Bool.not_eq_true'] at hf
    exact hf.2

/-- Witness for the amended C3 on the hidden-directory filesystem. -/
theorem walk_excludes_hidden_basenames_witness :
    walkFiles fsHidden ["d"] = Except.ok [["d", ".h", "a"]] ∧
    startsWithDot (baseName ["d", ".h", "a"]) = false :=
  ⟨rfl, walk_excludes_hidden_basenames fsHidden ["d"] [["d", ".h", "a"]] rfl
    ["d", ".h", "a"] (by simp)⟩

/-- C9: path resolution is all-or-nothing.  If any root's metadata lookup
fails (the root is absent or unreadable), or any root is a directory whose
walk fails, then the whole call returns an error: no partial collection of
files is ever produced. -/
theorem resolve_all_or_nothing (fs : Fs) (paths : List (List String))
    (d : List String) (hmem : d ∈ paths)
    (hfail : List.lookup d fs = none ∨
      List.lookup d fs = some FsNode.unreadableNode ∨
      (List.lookup d fs = some FsNode.dirNode ∧ walkFiles fs d = Except.error ())) :
    ∃ e, recursively_find_all_files fs paths = Except.error e := by
  induction paths with
  | nil => exact absurd hmem (List.not_mem_nil d)
  | cons hd tl ih =>
    rcases List.mem_cons.mp hmem with rfl | htl
    · rcases hfail with hf | hf | ⟨hf, hw⟩
      · exact ⟨statErrMsg d, by simp [recursively_find_all_files, hf]⟩
      · exact ⟨statErrMsg d, by simp [recursively_find_all_files, hf]⟩
      · exact ⟨walkErrMsg d, by simp [recursively_find_all_files, hf, hw]⟩
    · obtain ⟨e, he⟩ := ih htl
      cases hl : List.lookup hd fs with
      | none => exact ⟨statErrMsg hd, by simp [recursively_find_all_files, hl]⟩
      | some node =>
        cases node with
        | unreadableNode =>
          exact ⟨statErrMsg hd, by simp [recursively_find_all_files, hl]⟩
        | fileNode ls =>
          exact ⟨e, by simp [recursively_find_all_files, hl, he, Except.map]⟩
        | dirNode =>
          cases hw : walkFiles fs hd with
          | error u =>
            exact ⟨walkErrMsg hd, by simp [recursively_find_all_files, hl, hw]⟩
          | ok found =>
            exact ⟨e, by simp [recursively_find_all_files, hl, hw, he, Except.map]⟩

/-- Witness for C9: a single unreadable root makes the whole resolution fail. -/
theorem resolve_all_or_nothing_witness :
    ∃ e, recursively_find_all_files fsUn [["x"]] = Except.error e :=
  resolve_all_or_nothing fsUn [["x"]] ["x"] (by simp) (Or.inr (Or.inl rfl))

/-- C8: the file loop is fail-fast.  If every file before `f` scans cleanly
and scanning `f` fails (open failure or decode failure), the run's output is
the clean files' records followed by `f`'s partial records, with `f`'s error
message reported — and the result does not depend on the files listed after
`f`, which are never opened or scanned. -/
theorem runFiles_fail_fast (fs : Fs) (config : Config) (pre : List (List String))
    (f : List String) (rest : List (List String)) (e : List Char)
    (hpre : ∀ g ∈ pre, (search_file fs config g).2 = none)
    (hf : (search_file fs config f).2 = some e) :
    runFiles fs config (pre ++ f :: rest) =
      ((runFiles fs config pre).1 ++ (search_file fs config f).1, some e) := by
  induction pre with
  | nil =>
    simp only [List.nil_append, runFiles]
    rw [hf]
  | cons g pre1 ih =>
    have hg : (search_file fs config g).2 = none := hpre g (List.mem_cons_self g pre1)
    simp only [List.cons_append, runFiles, List.append_eq]
    rw [hg, ih (fun x hx => hpre x (List.mem_cons_of_mem g hx))]
    simp [runFiles, hg, List.append_assoc]

/-- Witness for C8: the missing file `x` fails to open, so the readable file
`y` listed after it is never scanned and the run reports the open error. -/
theorem runFiles_fail_fast_witness :
    runFiles fsOne cfgPlain ([] ++ ["x"] :: [["y"]]) =
      ((runFiles fsOne cfgPlain []).1 ++ (search_file fsOne cfgPlain ["x"]).1,
       some (openErrMsg ["x"])) :=
  runFiles_fail_fast fsOne cfgPlain [] ["x"] [["y"]] (openErrMsg ["x"])
    (by simp) rfl

theorem scanLines_decode_error (config : Config) (re : List Char)
    (file_path : List String) (rest : List (Option (List Char))) :
    ∀ (i : Nat) (pre : List (Option (List Char))), (∀ x ∈ pre, x.isSome) →
      scanLines config re file_path i (pre ++ none :: rest) =
        ((scanLines config re file_path i pre).1,
         some (readErrMsg (i + pre.length + 1) file_path)) := by
  intro i pre
  induction pre generalizing i with
  | nil =>
    intro _
    simp [scanLines]
  | cons x pre1 ih =>
    intro hpre
    have hx : x.isSome := hpre x (List.mem_cons_self x pre1)
    cases x with
    | none => simp at hx
    | some line =>
      simp only [List.cons_append, scanLines, List.length_cons, List.append_eq]
      rw [ih (i + 1) (fun y hy => hpre y (List.mem_cons_of_mem _ hy))]
      have harith : i + 1 + pre1.length + 1 = i + (pre1.length + 1) + 1 := by omega
      rw [harith]
      by_cases hsp : should_print config.invert_match
          (pattern_in_line re config.case_insensitive config.colored_output line).1 = true
      · simp [hsp]
      · simp [hsp]

/-- C10: when the first decode failure of a file sits at line `n` (after `n-1`
decodable lines), the per-file scan reports the read error naming line `n`,
and its printed output is exactly the eligible lines among the first `n-1` —
every eligible earlier line is printed before the error is reported. -/
theorem scan_prints_prefix_before_decode_error (fs : Fs) (config : Config)
    (file_path : List String) (pre rest : List (Option (List Char)))
    (hf : List.lookup file_path fs = some (FsNode.fileNode (pre ++ none :: rest)))
    (hpre : ∀ x ∈ pre, x.isSome) :
    search_file fs config file_path =
      ((scanLines config config.pattern file_path 0 pre).1,
       some (readErrMsg (pre.length + 1) file_path)) := by
  simp only [search_file, hf]
  rw [show buildRegex config.pattern = some config.pattern from parseEscaped_escape _]
  have h := scanLines_decode_error config config.pattern file_path rest 0 pre hpre
  simpa using h

/-- Witness for C10: in the file `f` with a matching first line, an
undecodable second line and a matching third line, the scan prints line 1
and reports the read error at line 2; line 3 is never reached. -/
theorem scan_prints_prefix_before_decode_error_witness :
    search_file fsBadLine cfgPlain ["f"] =
      ((scanLines cfgPlain cfgPlain.pattern ["f"] 0 [some ['c', 'a', 't']]).1,
       some (readErrMsg 2 ["f"])) :=
  scan_prints_prefix_before_decode_error fsBadLine cfgPlain ["f"]
    [some ['c', 'a', 't']] [some ['c', 'a', 't']] rfl (by simp)
